import Mathlib

/-!
Verification of the volcengine TTS SDK's timestamp synthesizer, sentence
lifecycle tracker, client-side audio assembler and session teardown, as a
shallow embedding of `src/types.ts` and `src/core/tts.ts`.

Numbers (JavaScript `number`) are modelled as `ℚ`; `Math.round` is modelled
exactly (round half toward plus infinity); strings are `List Char` at code
point granularity (`Array.from`); byte arrays are `List Nat`.

The rational operations are restored to `semireducible` so that concrete
runs of the embedded functions can be evaluated by `decide` (the proofs
still go through the kernel, which is unaffected by reducibility
attributes).
-/

set_option allowUnsafeReducibility true

attribute [semireducible] Rat.add Rat.mul Rat.sub Rat.inv Rat.div Rat.ofScientific

/-- JS `Math.round`: nearest integer, halves toward plus infinity. -/
def jsRound (x : ℚ) : ℚ := (⌊x + 1/2⌋ : ℤ)

/-- The whitespace class of JS `\s` / `String.trim` (ASCII whitespace plus
the common Unicode space characters). -/
def jsWhitespace (c : Char) : Bool :=
  c = ' ' || c = Char.ofNat 9 || c = Char.ofNat 10 || c = Char.ofNat 11 ||
  c = Char.ofNat 12 || c = Char.ofNat 13 || c = Char.ofNat 0xa0 ||
  c = Char.ofNat 0x2028 || c = Char.ofNat 0x2029 || c = Char.ofNat 0x3000 ||
  c = Char.ofNat 0xfeff

/-- The CJK punctuation class `[，。！？；：“”‘’（）【】《》、]` used both by
`convertWordsToCharTimestamps` (trailing strip) and
`generateEstimatedTimestamps` (30% share). -/
def punctChars : List Char :=
  ['，', '。', '！', '？', '；', '：', '“', '”', '‘', '’',
   '（', '）', '【', '】', '《', '》', '、']

def isPunct (c : Char) : Bool := punctChars.contains c

/-- One entry of the synthesized per-character timing sequence
(`AudioTimestamp` in `src/types.ts`; `char` is a JS string). -/
structure AudioTimestamp where
  char : List Char
  startTime : ℚ
  endTime : ℚ
deriving DecidableEq, Repr

/-- One word-level span from the sentence-end payload
(`{word, startTime, endTime}`, times in seconds). -/
structure Word where
  word : List Char
  startTime : ℚ
  endTime : ℚ
deriving DecidableEq, Repr

/-- Model of `text.replace(/^\s*\n*/, '')`: the leading `\s*` already eats all
leading whitespace. -/
def stripLeadingWS (l : List Char) : List Char := l.dropWhile jsWhitespace

/-- Model of `replace(/\s+/g, ' ')`: each maximal whitespace run becomes one `' '`.
The flag records whether the previous character was whitespace. -/
def collapseAux : Bool → List Char → List Char
  | _, [] => []
  | prev, c :: rest =>
    if jsWhitespace c then
      if prev then collapseAux true rest else ' ' :: collapseAux true rest
    else c :: collapseAux false rest

def collapseWS (l : List Char) : List Char := collapseAux false l

/-- JS `String.trim`. -/
def trimWS (l : List Char) : List Char :=
  ((l.dropWhile jsWhitespace).reverse.dropWhile jsWhitespace).reverse

/-- Model of `text.replace(/^\s*\n*/, '').replace(/\s+/g, ' ').trim()` from
`convertWordsToCharTimestamps`. -/
def cleanTextOf (text : List Char) : List Char :=
  trimWS (collapseWS (stripLeadingWS text))

/-- Model of `wordText.replace(/[，。！？；：“”‘’（）【】《》、]+$/, '')`: drop the
trailing punctuation run. -/
def dropTrailingPunct (w : List Char) : List Char :=
  (w.reverse.dropWhile isPunct).reverse

/-- Inner character loop of `convertWordsToCharTimestamps`: emit up to `k`
timestamps, consuming characters of `rest` in order (the JS loop body is
guarded by `textIndex < textChars.length`); the `j`-th gets the times
`f j`, rounded. -/
def emitSpan : List Char → Nat → (Nat → ℚ × ℚ) → List AudioTimestamp × List Char
  | rest, 0, _ => ([], rest)
  | [], _ + 1, _ => ([], [])
  | c :: rest, k + 1, f =>
      (⟨[c], jsRound (f 0).1, jsRound (f 0).2⟩ ::
        (emitSpan rest k (fun j => f (j + 1))).1,
       (emitSpan rest k (fun j => f (j + 1))).2)

/-- Model of `while (textIndex < textChars.length && textChars[textIndex] === ' ')`:
each consumed space gets the fixed `[round e, round (e+50)]` slot. -/
def emitSpaces : List Char → ℚ → List AudioTimestamp × List Char
  | [], _ => ([], [])
  | c :: rest, e =>
      if c = ' ' then
        (⟨[' '], jsRound e, jsRound (e + 50)⟩ :: (emitSpaces rest e).1,
         (emitSpaces rest e).2)
      else ([], c :: rest)

/-- Final `while (textIndex < textChars.length)` loop: leftover characters
are chained from the last known end time with a fixed 200 ms width. -/
def emitLeftover : List Char → ℚ → List AudioTimestamp
  | [], _ => []
  | c :: rest, last => ⟨[c], last, last + 200⟩ :: emitLeftover rest (last + 200)

/-- Body of one iteration of the `for` loop over `words` (non-skipped
word): clean-word block, punctuation block, inter-word space loop. -/
def processOneWord (w : Word) (rest : List Char) : List AudioTimestamp × List Char :=
  let startTime := w.startTime * 1000
  let endTime := w.endTime * 1000
  let cleanWord := dropTrailingPunct w.word
  let punct := w.word.drop cleanWord.length
  let s1 :=
    if cleanWord.length = 0 then (([] : List AudioTimestamp), rest)
    else
      let wordDuration := endTime - startTime - (punct.length : ℚ) * 100
      let timePerChar := wordDuration / (cleanWord.length : ℚ)
      emitSpan rest cleanWord.length
        (fun j => (startTime + (j : ℚ) * timePerChar,
                   startTime + ((j : ℚ) + 1) * timePerChar))
  let s2 :=
    if punct.length = 0 then (([] : List AudioTimestamp), s1.2)
    else
      let punctStartTime := endTime - (punct.length : ℚ) * 100
      emitSpan s1.2 punct.length
        (fun k => (punctStartTime + (k : ℚ) * 100,
                   punctStartTime + (k : ℚ) * 100 + 100))
  let s3 := emitSpaces s2.2 endTime
  (s1.1 ++ s2.1 ++ s3.1, s3.2)

/-- The `for (let i = 0; i < words.length; i++)` loop; a word that is empty
or whitespace-only (`!wordText || wordText.trim().length === 0`) is
skipped. -/
def processWords : List Word → List Char → List AudioTimestamp × List Char
  | [], rest => ([], rest)
  | w :: ws, rest =>
      if w.word.all jsWhitespace then processWords ws rest
      else
        ((processOneWord w rest).1 ++ (processWords ws (processOneWord w rest).2).1,
         (processWords ws (processOneWord w rest).2).2)

/-- Model of `timestamps[timestamps.length - 1].endTime`, or 0 when empty. -/
def lastEndOf (l : List AudioTimestamp) : ℚ :=
  ((l.getLast?).map AudioTimestamp.endTime).getD 0

/-- Embeds `ServerStreamingAudioTextProcessor.convertWordsToCharTimestamps`. -/
def convertWordsToCharTimestamps (words : List Word) (text : List Char) :
    List AudioTimestamp :=
  (processWords words (cleanTextOf text)).1 ++
    emitLeftover (processWords words (cleanTextOf text)).2
      (lastEndOf (processWords words (cleanTextOf text)).1)

/-- Per-character loop of `generateEstimatedTimestamps`, with the fixed
`timePerChar` and the running `currentTime` pointer. -/
def genEstAux (tpc : ℚ) : ℚ → List Char → List AudioTimestamp
  | _, [] => []
  | cur, c :: rest =>
      ⟨[c], jsRound cur, jsRound (cur + (if isPunct c then tpc * (3/10) else tpc))⟩ ::
        genEstAux tpc (cur + (if isPunct c then tpc * (3/10) else tpc)) rest

/-- Embeds `ServerStreamingAudioTextProcessor.generateEstimatedTimestamps`:
returns the timestamp list together with the echoed `totalDuration`. -/
def generateEstimatedTimestamps (sentence : List Char) (totalDuration : ℚ) :
    List AudioTimestamp × ℚ :=
  if sentence.length = 0 then ([], 0)
  else (genEstAux (totalDuration / (sentence.length : ℚ)) 0 sentence, totalDuration)

/-- Decidable check of the spec's ordering invariant
`start[i] <= end[i] <= start[i+1]` over a timestamp list. -/
def chainOk : List AudioTimestamp → Bool
  | [] => true
  | [t] => decide (t.startTime ≤ t.endTime)
  | t :: u :: rest =>
      decide (t.startTime ≤ t.endTime) && decide (t.endTime ≤ u.startTime) &&
        chainOk (u :: rest)

/-- Event kinds of the backend protocol (`EventType` in `core/protocols.ts`,
which is imported by the sources; only the kinds the embedded code
dispatches on are modelled). -/
inductive EventType
  | ConnectionStarted
  | ConnectionFinished
  | SessionStarted
  | SessionFinished
  | TTSSentenceStart
  | TTSResponse
  | TTSSentenceEnd
  | TTSEnded
  | StartSession
  | TaskRequest
deriving DecidableEq, Repr

/-- One `timestamps[]` entry of a sentence-end payload: the code accepts
either of two field-naming conventions, so both are carried (a `none`
field is an absent JSON key). -/
structure TsEntry where
  char : Option (List Char)
  character : Option (List Char)
  start_time : Option ℚ
  startTime : Option ℚ
  end_time : Option ℚ
  endTime : Option ℚ
deriving DecidableEq, Repr

/-- Result of `JSON.parse` on a control payload, restricted to the fields
the processor reads. A `none` field models an absent (or mistyped, hence
never matched) JSON key. -/
structure ParsedPayload where
  sentence_id : Option ℚ := none
  sentence : Option (List Char) := none
  text : Option (List Char) := none
  content : Option (List Char) := none
  words : Option (List Word) := none
  timestamps : Option (List TsEntry) := none
  duration : Option ℚ := none
  total_duration : Option ℚ := none
  totalDuration : Option ℚ := none
deriving DecidableEq, Repr

/-- A frame payload: its raw bytes, the text obtained by `TextDecoder`,
and the outcome of `JSON.parse` on that text (`none` models a parse
exception). -/
structure Payload where
  bytes : List Nat
  text : List Char := []
  parsed : Option ParsedPayload := none
deriving DecidableEq, Repr

/-- An inbound message as seen by `ServerStreamingAudioTextProcessor`
(`Message` from `core/protocols.ts`): event kind, optional sequence
number, optional payload. -/
structure Msg where
  event : EventType
  sequence : Option ℚ := none
  payload : Option Payload := none
deriving DecidableEq, Repr

/-- JS `a || b` for an optional string field: an absent or empty string is
falsy. -/
def jsOrStr (a : Option (List Char)) (b : List Char) : List Char :=
  match a with
  | some s => if s.isEmpty then b else s
  | none => b

/-- JS `a || b` for an optional number field: an absent or zero value is
falsy. -/
def jsOrQ (a : Option ℚ) (b : ℚ) : ℚ :=
  match a with
  | some v => if v = 0 then b else v
  | none => b

/-- Truthiness of an optional string (`parsed.sentence`, `parsed.text`). -/
def truthyStr (a : Option (List Char)) : Bool :=
  match a with
  | some s => !s.isEmpty
  | none => false

/-- Model of `msg.payload?.length` with an absent payload counting as 0 (JS
`undefined > 0` is false). -/
def payloadLen (msg : Msg) : Nat :=
  match msg.payload with
  | some p => p.bytes.length
  | none => 0

def payloadBytes (msg : Msg) : List Nat :=
  match msg.payload with
  | some p => p.bytes
  | none => []

/-- Mutable fields of `ServerStreamingAudioTextProcessor`. -/
structure ProcessorState where
  currentSentenceId : Option ℚ := none
  currentSentence : List Char := []
  audioChunkCount : Nat := 0
  sentenceStartTime : ℚ := 0
  fullText : List Char := []
  totalSentences : Nat := 0
deriving DecidableEq, Repr

def initProcessor : ProcessorState := {}

/-- Truthiness of `this.currentSentenceId` (a JS number: 0 is falsy,
`undefined` is falsy). -/
def truthyId (o : Option ℚ) : Bool :=
  match o with
  | some v => decide (v ≠ 0)
  | none => false

/-- Events the processor hands to its callbacks (`ClientEvent` payloads
relevant here). -/
inductive PEvt
  | textChunk (content : List Char) (timestamp : ℚ)
  | sentenceStart (sentenceId : ℚ) (sentence : List Char) (timestamp : ℚ)
  | audioChunk (sentenceId : ℚ) (chunkIndex : Nat) (audioData : List Nat)
      (isLast : Bool) (timestamp : ℚ)
  | sentenceComplete (sentenceId : ℚ) (sentence : List Char) (totalChunks : Nat)
      (duration : ℚ) (audioTimestamps : List AudioTimestamp)
      (totalAudioDuration : ℚ) (timestamp : ℚ)
  | chatComplete (fullText : List Char) (totalSentences : Nat) (timestamp : ℚ)
deriving DecidableEq, Repr

/-- Embeds `ServerStreamingAudioTextProcessor.extractSentenceId`. `fallback`
stands for the nondeterministic `Date.now() + Math.random()` value. -/
def extractSentenceId (msg : Msg) (fallback : ℚ) : ℚ :=
  match msg.sequence with
  | some s => s
  | none =>
    match msg.payload with
    | some p =>
      if p.bytes.length = 0 then fallback
      else
        match p.parsed with
        | some parsed =>
          match parsed.sentence_id with
          | some sid => sid
          | none => fallback
        | none => fallback
    | none => fallback

/-- Embeds `ServerStreamingAudioTextProcessor.extractSentenceText`. -/
def extractSentenceText (msg : Msg) : List Char :=
  match msg.payload with
  | some p =>
    if p.bytes.length = 0 then "空句子".toList
    else
      match p.parsed with
      | some parsed =>
          jsOrStr parsed.sentence
            (jsOrStr parsed.text (jsOrStr parsed.content ("未知句子".toList)))
      | none => if p.text.isEmpty then "未知句子".toList else p.text
  | none => "空句子".toList

/-- Model of `Math.max(...timestamps.map(t => t.endTime))` guarded by
`timestamps.length > 0`, else 0. -/
def maxEndTime (l : List AudioTimestamp) : ℚ :=
  match l.map AudioTimestamp.endTime with
  | [] => 0
  | x :: xs => xs.foldl max x

/-- Model of `ts.char || ts.character || ''`, `ts.start_time || ts.startTime || 0`,
`ts.end_time || ts.endTime || 0`. -/
def tsEntryToTimestamp (e : TsEntry) : AudioTimestamp :=
  ⟨jsOrStr e.char (jsOrStr e.character []),
   jsOrQ e.start_time (jsOrQ e.startTime 0),
   jsOrQ e.end_time (jsOrQ e.endTime 0)⟩

/-- Model of `const sentence = parsed.sentence || parsed.text` (evaluated under the
guard that one of the two is truthy). -/
def jsOrStr2 (a b : Option (List Char)) : List Char :=
  if truthyStr a then (a.getD []) else (b.getD [])

/-- Embeds `ServerStreamingAudioTextProcessor.extractTimestampInfo`. The state is
needed for `this.currentSentence`. A payload whose `JSON.parse` throws is
one with `parsed = none`; the catch branch falls back to the estimate. -/
def extractTimestampInfo (st : ProcessorState) (msg : Msg) :
    List AudioTimestamp × ℚ :=
  match msg.payload with
  | none => generateEstimatedTimestamps st.currentSentence 2000
  | some p =>
    if p.bytes.length = 0 then generateEstimatedTimestamps st.currentSentence 2000
    else
      match p.parsed with
      | none => generateEstimatedTimestamps st.currentSentence 2000
      | some parsed =>
        match parsed.words with
        | some ws =>
            (convertWordsToCharTimestamps ws (jsOrStr parsed.text st.currentSentence),
             maxEndTime (convertWordsToCharTimestamps ws
               (jsOrStr parsed.text st.currentSentence)))
        | none =>
          match parsed.timestamps with
          | some entries =>
              (entries.map tsEntryToTimestamp,
               jsOrQ parsed.total_duration (jsOrQ parsed.totalDuration
                 (maxEndTime (entries.map tsEntryToTimestamp))))
          | none =>
            if truthyStr parsed.sentence || truthyStr parsed.text then
              generateEstimatedTimestamps (jsOrStr2 parsed.sentence parsed.text)
                (jsOrQ parsed.duration (jsOrQ parsed.total_duration 2000))
            else generateEstimatedTimestamps st.currentSentence 2000

/-- Embeds `ServerStreamingAudioTextProcessor.handleTextChunk`. -/
def handleTextChunk (st : ProcessorState) (content : List Char) (now : ℚ) :
    ProcessorState × List PEvt :=
  ({ st with fullText := st.fullText ++ content }, [.textChunk content now])

/-- Embeds `ServerStreamingAudioTextProcessor.handleSentenceStart`. `now` is
`Date.now()`, `fb` the fallback sentence id. The sentence-start event is
only emitted when the extracted id is truthy, but the per-sentence state
and the counter are updated regardless. -/
def handleSentenceStart (st : ProcessorState) (msg : Msg) (now fb : ℚ) :
    ProcessorState × List PEvt :=
  if msg.event = EventType.TTSSentenceStart then
    ({ st with currentSentenceId := some (extractSentenceId msg fb),
               currentSentence := extractSentenceText msg,
               audioChunkCount := 0,
               sentenceStartTime := now,
               totalSentences := st.totalSentences + 1 },
     if extractSentenceId msg fb = 0 then []
     else [.sentenceStart (extractSentenceId msg fb) (extractSentenceText msg) now])
  else (st, [])

/-- Guard of `handleAudioResponse`:
`msg.event === EventType.TTSResponse && this.currentSentenceId &&
msg.payload?.length > 0`. -/
def audioGuard (sid : Option ℚ) (msg : Msg) : Bool :=
  decide (msg.event = EventType.TTSResponse) && truthyId sid &&
    decide (0 < payloadLen msg)

/-- Embeds `ServerStreamingAudioTextProcessor.handleAudioResponse`. -/
def handleAudioResponse (st : ProcessorState) (msg : Msg) (now : ℚ) :
    ProcessorState × List PEvt :=
  if audioGuard st.currentSentenceId msg then
    ({ st with audioChunkCount := st.audioChunkCount + 1 },
     [.audioChunk (st.currentSentenceId.getD 0) st.audioChunkCount
        (payloadBytes msg) false now])
  else (st, [])

/-- Embeds `ServerStreamingAudioTextProcessor.handleSentenceEnd`: emit the
sentence-complete event built from the pre-reset fields, then clear the
per-sentence working state. -/
def handleSentenceEnd (st : ProcessorState) (msg : Msg) (now : ℚ) :
    ProcessorState × List PEvt :=
  if msg.event = EventType.TTSSentenceEnd ∧ truthyId st.currentSentenceId then
    ({ st with currentSentenceId := none,
               currentSentence := [],
               audioChunkCount := 0,
               sentenceStartTime := 0 },
     [.sentenceComplete (st.currentSentenceId.getD 0) st.currentSentence
        st.audioChunkCount (now - st.sentenceStartTime)
        (extractTimestampInfo st msg).1 (extractTimestampInfo st msg).2 now])
  else (st, [])

/-- Embeds `ServerStreamingAudioTextProcessor.handleChatComplete`. -/
def handleChatComplete (st : ProcessorState) (now : ℚ) :
    ProcessorState × List PEvt :=
  (st, [.chatComplete st.fullText st.totalSentences now])

/-- One call into the processor, with its nondeterministic inputs
(`Date.now()`, fallback id) made explicit. -/
inductive POp
  | text (content : List Char) (now : ℚ)
  | sentStart (msg : Msg) (now fb : ℚ)
  | audio (msg : Msg) (now : ℚ)
  | sentEnd (msg : Msg) (now : ℚ)
deriving Repr

def pstep (st : ProcessorState) : POp → ProcessorState × List PEvt
  | .text c now => handleTextChunk st c now
  | .sentStart m now fb => handleSentenceStart st m now fb
  | .audio m now => handleAudioResponse st m now
  | .sentEnd m now => handleSentenceEnd st m now

/-- Run a sequence of processor calls, collecting the emitted events. -/
def prun (st : ProcessorState) : List POp → ProcessorState × List PEvt
  | [] => (st, [])
  | op :: ops =>
      ((prun (pstep st op).1 ops).1,
       (pstep st op).2 ++ (prun (pstep st op).1 ops).2)

/-- Concatenation, in arrival order, of the contents passed to
`handleTextChunk`. -/
def textConcat : List POp → List Char
  | [] => []
  | .text c _ :: ops => c ++ textConcat ops
  | .sentStart _ _ _ :: ops => textConcat ops
  | .audio _ _ :: ops => textConcat ops
  | .sentEnd _ _ :: ops => textConcat ops

/-- Number of sentence-start frames handled by `handleSentenceStart`. -/
def startCount : List POp → Nat
  | [] => 0
  | .sentStart m _ _ :: ops =>
      (if m.event = EventType.TTSSentenceStart then 1 else 0) + startCount ops
  | .text _ _ :: ops => startCount ops
  | .audio _ _ :: ops => startCount ops
  | .sentEnd _ _ :: ops => startCount ops

/-- Runs `handleAudioResponse` folded over a list of audio frames (the
`TTSResponse` arm of the receive loop). -/
def runAudio (st : ProcessorState) : List (Msg × ℚ) → ProcessorState × List PEvt
  | [] => (st, [])
  | p :: ps =>
      ((runAudio (handleAudioResponse st p.1 p.2).1 ps).1,
       (handleAudioResponse st p.1 p.2).2 ++
         (runAudio (handleAudioResponse st p.1 p.2).1 ps).2)

/-- The chunk index of an audio-chunk event. -/
def chunkIndexOf : PEvt → Option Nat
  | .audioChunk _ i _ _ _ => some i
  | _ => none

/-- The `isLast` flag of an audio-chunk event. -/
def isLastOf : PEvt → Option Bool
  | .audioChunk _ _ _ b _ => some b
  | _ => none

/-- Sentence status on the client (`SentenceData.status`). -/
inductive SStatus
  | pending
  | collecting
  | completed
deriving DecidableEq, Repr

/-- Embeds `AudioChunkData` in `src/types.ts`. -/
structure AudioChunkData where
  index : ℚ
  data : List Nat
  timestamp : ℚ
deriving DecidableEq, Repr

/-- Embeds `TypingState` in `src/types.ts` (as initialised by
`handleSentenceComplete`). -/
structure TypingState where
  isPlaying : Bool
  isPaused : Bool
  currentIndex : Nat
  timeouts : List ℚ
  startTime : ℚ
deriving DecidableEq, Repr

/-- Embeds `SentenceData` in `src/types.ts`. -/
structure SentenceData where
  id : ℚ
  text : List Char
  audioChunks : List AudioChunkData
  status : SStatus
  startTime : ℚ
  endTime : Option ℚ := none
  duration : Option ℚ := none
  audioTimestamps : Option (List AudioTimestamp) := none
  totalAudioDuration : Option ℚ := none
  typingState : Option TypingState := none
deriving DecidableEq, Repr

/-- The client's `Map<number, SentenceData>` plus its stats counters. -/
structure ClientState where
  sentences : ℚ → Option SentenceData
  totalSentences : Nat
  completedSentences : Nat
  totalChunks : Nat

def initClient : ClientState := ⟨fun _ => none, 0, 0, 0⟩

/-- Model of `Map.set`. -/
def mapSet (f : ℚ → Option SentenceData) (k : ℚ) (v : SentenceData) :
    ℚ → Option SentenceData :=
  fun k' => if k' = k then some v else f k'

/-- Server events as deserialized by the client (`ClientEvent.data` plus
`timestamp`). -/
inductive CEvent
  | textChunk (content : List Char) (timestamp : ℚ)
  | sentenceStart (sentenceId : ℚ) (sentence : List Char) (timestamp : ℚ)
  | audioChunk (sentenceId : ℚ) (chunkIndex : ℚ) (audioData : List Nat)
      (timestamp : ℚ)
  | sentenceComplete (sentenceId : ℚ) (duration : ℚ)
      (audioTimestamps : Option (List AudioTimestamp))
      (totalAudioDuration : Option ℚ) (timestamp : ℚ)
  | chatComplete (fullText : List Char) (totalSentences : Nat) (timestamp : ℚ)
deriving Repr

/-- Embeds `TTSClientSDK.processServerEvent`, restricted to the handlers that
touch sentence data (`handleSentenceStart`, `handleAudioChunk`,
`handleSentenceComplete`; text-chunk and chat-complete events only hit
callbacks and the connection status). -/
def clientStep (c : ClientState) : CEvent → ClientState
  | .textChunk _ _ => c
  | .sentenceStart sid s ts =>
      { c with sentences := mapSet c.sentences sid
                 ⟨sid, s, [], .pending, ts, none, none, none, none, none⟩,
               totalSentences := c.totalSentences + 1 }
  | .audioChunk sid idx data ts =>
      match c.sentences sid with
      | some sd =>
          { c with sentences := mapSet c.sentences sid
                     { sd with audioChunks := sd.audioChunks ++ [⟨idx, data, ts⟩],
                               status := .collecting },
                   totalChunks := c.totalChunks + 1 }
      | none => c
  | .sentenceComplete sid dur ats tad ts =>
      match c.sentences sid with
      | some sd =>
          { c with sentences := mapSet c.sentences sid
                     { sd with status := .completed,
                               endTime := some ts,
                               duration := some dur,
                               audioTimestamps := ats,
                               totalAudioDuration := tad,
                               typingState :=
                                 match ats with
                                 | some l =>
                                     if 0 < l.length then some ⟨false, false, 0, [], 0⟩
                                     else sd.typingState
                                 | none => sd.typingState },
                   completedSentences := c.completedSentences + 1 }
      | none => c
  | .chatComplete _ _ _ => c

def clientRun (c : ClientState) : List CEvent → ClientState
  | [] => c
  | ev :: evs => clientRun (clientStep c ev) evs

/-- The `Uint8Array(totalLength)` copy loop of `getMergedAudio`: writing
each chunk at the running offset is concatenation in list order. -/
def mergeChunks (chunks : List AudioChunkData) : List Nat :=
  (chunks.map AudioChunkData.data).flatten

/-- Embeds `TTSClientSDK.getMergedAudio`. -/
def getMergedAudio (c : ClientState) (sentenceId : ℚ) : Option (List Nat) :=
  match c.sentences sentenceId with
  | none => none
  | some s =>
      if s.audioChunks.length = 0 then none else some (mergeChunks s.audioChunks)

/-- Does the event leave the sentence `sid` alone (it addresses a
different sentence id, or is not a per-sentence event at all)? -/
def eventForOtherSentence : CEvent → ℚ → Prop
  | .sentenceStart i _ _, sid => i ≠ sid
  | .audioChunk i _ _ _, sid => i ≠ sid
  | .sentenceComplete i _ _ _ _, sid => i ≠ sid
  | .textChunk _ _, _ => True
  | .chatComplete _ _ _, _ => True

/-- Message types on the wire (`MsgType` in `core/protocols.ts`; only the
kind the teardown waits on needs distinguishing). -/
inductive MsgType
  | FullServerResponse
  | AudioOnlyServer
deriving DecidableEq, Repr

/-- An inbound frame as classified by the receive loop. -/
structure InFrame where
  msgType : MsgType
  event : EventType
deriving DecidableEq, Repr

/-- Observable actions of the session teardown. -/
inductive SessAct
  | sendFinishSession
  | sendFinishConnection
  | recvFrame (f : InFrame)
  | closeSocket
deriving DecidableEq, Repr

/-- Is `f` the connection-finished acknowledgment
(`MsgType.FullServerResponse`, `EventType.ConnectionFinished`)? -/
def isConnFinished (f : InFrame) : Bool :=
  decide (f.msgType = MsgType.FullServerResponse) &&
    decide (f.event = EventType.ConnectionFinished)

/-- Modelled from the spec: `core/protocols.ts` (with `FinishSession`,
`FinishConnection` and `WaitForEvent`) is not among the sources; per
§4.2/§4.3 of the spec, `WaitForEvent ws MsgType.FullServerResponse
EventType.ConnectionFinished` blocks reading inbound frames until the
first connection-finished acknowledgment. This splits the inbound stream
into the consumed prefix (ending with the acknowledgment) and the rest;
`none` means the acknowledgment never arrives and the wait blocks
forever. -/
def splitAtMatch : List InFrame → Option (List InFrame × List InFrame)
  | [] => none
  | f :: rest =>
      if isConnFinished f then some ([f], rest)
      else
        match splitAtMatch rest with
        | some (c, r) => some (f :: c, r)
        | none => none

/-- Modelled from the spec where it depends on `WaitForEvent`: the action
trace of `session.finished()` from `src/core/tts.ts` given the stream of
inbound frames — send the finish-session frame, send the
finish-connection frame, consume inbound frames until the
connection-finished acknowledgment, and only then close the socket; if
the acknowledgment never arrives, the socket is never closed. -/
def finishedTrace (inbound : List InFrame) : List SessAct :=
  SessAct.sendFinishSession :: SessAct.sendFinishConnection ::
    (match splitAtMatch inbound with
     | some (c, _) => c.map SessAct.recvFrame ++ [SessAct.closeSocket]
     | none => inbound.map SessAct.recvFrame)

/-- A step of the word-to-char conversion consumes a prefix of the text:
its emitted timestamps carry, as singleton strings, exactly the consumed
characters, and its second component is the unconsumed remainder. -/
def ConsumesFrom (p : List AudioTimestamp × List Char) (rest : List Char) : Prop :=
  p.1.map AudioTimestamp.char ++ p.2.map (fun c => [c]) = rest.map (fun c => [c])

/-- Spec §8 scenario: sentence `"你好。"` with the single word span
`{word: "你好", 0s..0.6s}` yields three timestamps — the two word
characters split 600 ms evenly and the trailing `。` takes the 200 ms
leftover slot chained from 600. -/
theorem convertWords_spec_scenario :
    (convertWordsToCharTimestamps [⟨"你好".toList, 0, 6/10⟩] ("你好。".toList)).map
      (fun t => (t.char, t.startTime, t.endTime))
    = [(['你'], 0, 300), (['好'], 300, 600), (['。'], 600, 800)] := by decide

theorem consumesFrom_nil (rest : List Char) : ConsumesFrom ([], rest) rest := by
  simp [ConsumesFrom]

theorem consumesFrom_append2 (p q : List AudioTimestamp × List Char) (rest : List Char)
    (hp : ConsumesFrom p rest) (hq : ConsumesFrom q p.2) :
    ConsumesFrom (p.1 ++ q.1, q.2) rest := by
  simp only [ConsumesFrom, List.map_append, List.append_assoc] at *
  rw [hq, hp]

theorem consumesFrom_append3 (p q s : List AudioTimestamp × List Char) (rest : List Char)
    (hp : ConsumesFrom p rest) (hq : ConsumesFrom q p.2) (hs : ConsumesFrom s q.2) :
    ConsumesFrom (p.1 ++ q.1 ++ s.1, s.2) rest := by
  simp only [ConsumesFrom, List.map_append, List.append_assoc] at *
  rw [hs, hq, hp]

theorem emitSpan_chars : ∀ (k : Nat) (rest : List Char) (f : Nat → ℚ × ℚ),
    ConsumesFrom (emitSpan rest k f) rest
  | 0, rest, _ => by simp [ConsumesFrom, emitSpan]
  | _ + 1, [], _ => by simp [ConsumesFrom, emitSpan]
  | k + 1, c :: rest, f => by
      have ih := emitSpan_chars k rest (fun j => f (j + 1))
      simp only [ConsumesFrom, emitSpan, List.map_cons, List.cons_append] at *
      rw [ih]

theorem emitSpaces_chars : ∀ (rest : List Char) (e : ℚ),
    ConsumesFrom (emitSpaces rest e) rest
  | [], e => by simp [ConsumesFrom, emitSpaces]
  | c :: rest, e => by
      have ih := emitSpaces_chars rest e
      simp only [ConsumesFrom] at ih
      by_cases h : c = ' '
      · subst h
        simp [ConsumesFrom, emitSpaces, ih]
      · simp [ConsumesFrom, emitSpaces, h]

theorem emitLeftover_chars : ∀ (rest : List Char) (t : ℚ),
    (emitLeftover rest t).map AudioTimestamp.char = rest.map (fun c => [c])
  | [], _ => by simp [emitLeftover]
  | c :: rest, t => by
      simp only [emitLeftover, List.map_cons, List.cons.injEq, true_and]
      exact emitLeftover_chars rest (t + 200)

theorem processOneWord_chars (w : Word) (rest : List Char) :
    ConsumesFrom (processOneWord w rest) rest := by
  unfold processOneWord
  refine consumesFrom_append3 _ _ _ _ ?_ ?_ ?_
  · split
    · exact consumesFrom_nil rest
    · exact emitSpan_chars _ _ _
  · split
    · exact consumesFrom_nil _
    · exact emitSpan_chars _ _ _
  · exact emitSpaces_chars _ _

theorem processWords_chars : ∀ (ws : List Word) (rest : List Char),
    ConsumesFrom (processWords ws rest) rest
  | [], rest => by simp [ConsumesFrom, processWords]
  | w :: ws, rest => by
      by_cases h : w.word.all jsWhitespace
      · simpa [processWords, h] using processWords_chars ws rest
      · have h1 := processOneWord_chars w rest
        have h2 := processWords_chars ws (processOneWord w rest).2
        simp only [processWords, if_neg h]
        exact consumesFrom_append2 _ _ _ h1 h2

theorem convertWordsToCharTimestamps_chars (words : List Word) (text : List Char) :
    (convertWordsToCharTimestamps words text).map AudioTimestamp.char
      = (cleanTextOf text).map (fun c => [c]) := by
  have h := processWords_chars words (cleanTextOf text)
  simp only [ConsumesFrom] at h
  unfold convertWordsToCharTimestamps
  rw [List.map_append, emitLeftover_chars]
  exact h

/-- C1. For every list of word spans and every sentence text,
`convertWordsToCharTimestamps` returns exactly one timestamp per character
of the whitespace-normalized text, whose `char` fields are those
characters, as singleton strings, in text order. (The ordering property
`start[i] <= end[i] <= start[i+1]` of the original claim does not hold in
general; see the counterexample.) -/
theorem convertWords_covers_text (words : List Word) (text : List Char) :
    (convertWordsToCharTimestamps words text).map AudioTimestamp.char
        = (cleanTextOf text).map (fun c => [c]) ∧
    (convertWordsToCharTimestamps words text).length = (cleanTextOf text).length := by
  refine ⟨convertWordsToCharTimestamps_chars words text, ?_⟩
  have h := congrArg List.length (convertWordsToCharTimestamps_chars words text)
  simpa using h

/-- C1 counterexample. For the covering word spans
`[{word: "ab", 0s..1s}, {word: "cd", 1s..2s}]` over the text `"ab cd"` the
inter-word space is stamped `[1000, 1050]` while the next word's first
character starts at `1000`, so `end[i] <= start[i+1]` fails (`chainOk`
checks `start[i] <= end[i]` and `end[i] <= start[i+1]` over the produced
list). -/
theorem convertWords_ordering_counterexample :
    chainOk (convertWordsToCharTimestamps
        [⟨"ab".toList, 0, 1⟩, ⟨"cd".toList, 1, 2⟩] ("ab cd".toList)) = false ∧
    (convertWordsToCharTimestamps
        [⟨"ab".toList, 0, 1⟩, ⟨"cd".toList, 1, 2⟩] ("ab cd".toList)).map
      (fun t => (t.char, t.startTime, t.endTime))
      = [(['a'], 0, 500), (['b'], 500, 1000), ([' '], 1000, 1050),
         (['c'], 1000, 1500), (['d'], 1500, 2000)] := by
  constructor <;> decide

theorem jsRound_le_add_half (x : ℚ) : jsRound x ≤ x + 1/2 := by
  unfold jsRound
  exact_mod_cast Int.floor_le (x + 1/2)

theorem sub_half_lt_jsRound (x : ℚ) : x - 1/2 < jsRound x := by
  unfold jsRound
  have h := Int.lt_floor_add_one (x + 1/2)
  push_cast at h ⊢
  linarith

theorem jsRound_span_abs (a d : ℚ) : |jsRound (a + d) - jsRound a - d| < 1 := by
  have h1 := jsRound_le_add_half (a + d)
  have h2 := sub_half_lt_jsRound (a + d)
  have h3 := jsRound_le_add_half a
  have h4 := sub_half_lt_jsRound a
  rw [abs_lt]
  constructor <;> linarith

theorem genEstAux_chars (tpc : ℚ) : ∀ (l : List Char) (cur : ℚ),
    (genEstAux tpc cur l).map AudioTimestamp.char = l.map (fun c => [c])
  | [], _ => by simp [genEstAux]
  | c :: rest, cur => by
      simp only [genEstAux, List.map_cons, List.cons.injEq, true_and]
      exact genEstAux_chars tpc rest _

theorem genEstAux_mem (tpc : ℚ) : ∀ (l : List Char) (cur : ℚ) (t : AudioTimestamp),
    t ∈ genEstAux tpc cur l →
    ∃ c a, t = ⟨[c], jsRound a,
        jsRound (a + (if isPunct c then tpc * (3/10) else tpc))⟩
  | [], _, _, h => by simp [genEstAux] at h
  | c :: rest, cur, t, h => by
      simp only [genEstAux, List.mem_cons] at h
      rcases h with h | h
      · exact ⟨c, cur, h⟩
      · exact genEstAux_mem tpc rest _ t h

theorem genEstAux_ne_nil (tpc : ℚ) (cur : ℚ) (c : Char) (rest : List Char) :
    genEstAux tpc cur (c :: rest) ≠ [] := by
  simp [genEstAux]

theorem audioTs_getLast?_cons (a : AudioTimestamp) (l : List AudioTimestamp)
    (h : l ≠ []) : (a :: l).getLast? = l.getLast? := by
  cases l with
  | nil => exact absurd rfl h
  | cons b t => exact List.getLast?_cons_cons

theorem genEstAux_lastEnd (tpc : ℚ) : ∀ (l : List Char) (cur : ℚ), l ≠ [] →
    (∀ c ∈ l, isPunct c = false) →
    ((genEstAux tpc cur l).getLast?).map AudioTimestamp.endTime
      = some (jsRound (cur + (l.length : ℚ) * tpc))
  | [], _, h, _ => absurd rfl h
  | [c], cur, _, hp => by
      have hc : isPunct c = false := hp c (by simp)
      simp [genEstAux, hc]
  | c :: c2 :: rest, cur, _, hp => by
      have hc : isPunct c = false := hp c (by simp)
      have ih := genEstAux_lastEnd tpc (c2 :: rest) (cur + tpc) (by simp)
        (fun x hx => hp x (List.mem_cons_of_mem c hx))
      have hunfold : genEstAux tpc cur (c :: c2 :: rest)
          = ⟨[c], jsRound cur, jsRound (cur + tpc)⟩ ::
              genEstAux tpc (cur + tpc) (c2 :: rest) := by
        simp [genEstAux, hc]
      rw [hunfold, audioTs_getLast?_cons _ _ (genEstAux_ne_nil tpc _ c2 rest), ih]
      have harg : cur + tpc + ((c2 :: rest).length : ℚ) * tpc
          = cur + ((c :: c2 :: rest).length : ℚ) * tpc := by
        simp only [List.length_cons]
        push_cast
        ring
      rw [harg]

/-- C2 (amended). With no timing data, `generateEstimatedTimestamps` over a
non-empty sentence of length N and total duration D produces exactly N
timestamps carrying the sentence's characters in text order, echoes D as
the returned total duration, gives each punctuation character a span of
30% of the even share D/N up to the rounding of its two endpoints, and —
when the sentence contains no punctuation characters — ends exactly at D
rounded to the nearest millisecond. (When punctuation is present the last
end time falls short of D: nothing absorbs the removed 70% shares; see the
counterexample.) -/
theorem generateEstimated_shape (s : List Char) (D : ℚ) (hne : s ≠ []) :
    (generateEstimatedTimestamps s D).2 = D ∧
    (generateEstimatedTimestamps s D).1.map AudioTimestamp.char
        = s.map (fun c => [c]) ∧
    (generateEstimatedTimestamps s D).1.length = s.length ∧
    (∀ t ∈ (generateEstimatedTimestamps s D).1, ∀ c : Char, t.char = [c] →
        isPunct c = true →
        |t.endTime - t.startTime - (D / (s.length : ℚ)) * (3/10)| < 1) ∧
    ((∀ c ∈ s, isPunct c = false) →
        ((generateEstimatedTimestamps s D).1.getLast?).map AudioTimestamp.endTime
          = some (jsRound D)) := by
  have hlen : ¬ s.length = 0 := by
    simpa [List.length_eq_zero] using hne
  have hcast : ((s.length : ℚ)) ≠ 0 := Nat.cast_ne_zero.mpr hlen
  unfold generateEstimatedTimestamps
  rw [if_neg hlen]
  refine ⟨rfl, genEstAux_chars _ s 0, ?_, ?_, ?_⟩
  · have h := congrArg List.length (genEstAux_chars (D / (s.length : ℚ)) s 0)
    simpa using h
  · intro t ht c hchar hpunct
    obtain ⟨c', a, rfl⟩ := genEstAux_mem _ s 0 t ht
    have hcc : c' = c := by
      simpa using hchar
    subst hcc
    simp only [hpunct, if_true]
    exact jsRound_span_abs a _
  · intro hnp
    rw [genEstAux_lastEnd _ s 0 hne hnp]
    have harg : (0 : ℚ) + (s.length : ℚ) * (D / (s.length : ℚ)) = D := by
      field_simp
    rw [harg]

/-- C2 counterexample. For the sentence `"你好。"` (N = 3, one punctuation
character) and the default duration D = 2000 the last end time is 1533,
not 2000 — off by far more than rounding — because the punctuation
character only advances the running pointer by 30% of the share and the
shortfall is never redistributed. -/
theorem generateEstimated_total_counterexample :
    ((generateEstimatedTimestamps ("你好。".toList) 2000).1.getLast?).map
        AudioTimestamp.endTime = some 1533 ∧
    ((1533 : ℚ) ≠ 2000) ∧ ¬ (|(1533 : ℚ) - 2000| ≤ 1) ∧
    (generateEstimatedTimestamps ("你好。".toList) 2000).1.map
        (fun t => (t.char, t.startTime, t.endTime))
      = [(['你'], 0, 667), (['好'], 667, 1333), (['。'], 1333, 1533)] := by
  refine ⟨by decide, by decide, by decide, by decide⟩

/-- Witness for C2 at the punctuation-free sentence `"你好"` with
D = 2000. -/
theorem generateEstimated_shape_witness :
    ("你好".toList ≠ [] ∧ (∀ c ∈ "你好".toList, isPunct c = false)) ∧
    ((generateEstimatedTimestamps ("你好".toList) 2000).1.getLast?).map
        AudioTimestamp.endTime = some 2000 := by
  refine ⟨⟨by decide, by decide⟩, ?_⟩
  have h := (generateEstimated_shape ("你好".toList) 2000 (by decide)).2.2.2.2
    (by decide)
  rw [h]
  decide

theorem textConcat_cons (op : POp) (ops : List POp) :
    textConcat (op :: ops) = textConcat [op] ++ textConcat ops := by
  cases op <;> simp [textConcat]

theorem startCount_cons (op : POp) (ops : List POp) :
    startCount (op :: ops) = startCount [op] + startCount ops := by
  cases op <;> simp [startCount]

theorem pstep_fullText_totalSentences (st : ProcessorState) (op : POp) :
    (pstep st op).1.fullText = st.fullText ++ textConcat [op] ∧
    (pstep st op).1.totalSentences = st.totalSentences + startCount [op] := by
  cases op with
  | text c now => simp [pstep, handleTextChunk, textConcat, startCount]
  | sentStart m now fb =>
      by_cases h : m.event = EventType.TTSSentenceStart <;>
        simp [pstep, handleSentenceStart, h, textConcat, startCount]
  | audio m now =>
      by_cases h : audioGuard st.currentSentenceId m <;>
        simp [pstep, handleAudioResponse, h, textConcat, startCount]
  | sentEnd m now =>
      by_cases h : m.event = EventType.TTSSentenceEnd ∧ truthyId st.currentSentenceId <;>
        simp [pstep, handleSentenceEnd, h, textConcat, startCount]

theorem prun_fullText_totalSentences : ∀ (ops : List POp) (st : ProcessorState),
    (prun st ops).1.fullText = st.fullText ++ textConcat ops ∧
    (prun st ops).1.totalSentences = st.totalSentences + startCount ops
  | [], st => by simp [prun, textConcat, startCount]
  | op :: ops, st => by
      have hstep := pstep_fullText_totalSentences st op
      have ih := prun_fullText_totalSentences ops (pstep st op).1
      refine ⟨?_, ?_⟩
      · show (prun (pstep st op).1 ops).1.fullText = _
        rw [textConcat_cons, ih.1, hstep.1, List.append_assoc]
      · show (prun (pstep st op).1 ops).1.totalSentences = _
        rw [startCount_cons, ih.2, hstep.2]
        omega

/-- C3. After any sequence of processor calls starting from the initial
state, the chat-complete event reports exactly the concatenation, in
arrival order, of the text-chunk contents, and the number of
sentence-start frames handled by `handleSentenceStart`. -/
theorem chatComplete_reports_totals (ops : List POp) (now : ℚ) :
    (handleChatComplete (prun initProcessor ops).1 now).2
      = [PEvt.chatComplete (textConcat ops) (startCount ops) now] := by
  have h := prun_fullText_totalSentences ops initProcessor
  unfold handleChatComplete
  rw [h.1, h.2]
  simp [initProcessor]

theorem runAudio_spec : ∀ (msgs : List (Msg × ℚ)) (st : ProcessorState),
    (runAudio st msgs).2.map chunkIndexOf
        = (List.range' st.audioChunkCount (runAudio st msgs).2.length).map some ∧
    (∀ e ∈ (runAudio st msgs).2, isLastOf e = some false) ∧
    (runAudio st msgs).2.length
        = (msgs.filter (fun p => audioGuard st.currentSentenceId p.1)).length ∧
    (runAudio st msgs).1.currentSentenceId = st.currentSentenceId
  | [], st => by simp [runAudio]
  | p :: ps, st => by
      by_cases h : audioGuard st.currentSentenceId p.1
      · have hev : (handleAudioResponse st p.1 p.2).2
            = [PEvt.audioChunk (st.currentSentenceId.getD 0) st.audioChunkCount
                 (payloadBytes p.1) false p.2] := by
          simp [handleAudioResponse, h]
        have hsid : (handleAudioResponse st p.1 p.2).1.currentSentenceId
            = st.currentSentenceId := by
          simp [handleAudioResponse, h]
        have hcount : (handleAudioResponse st p.1 p.2).1.audioChunkCount
            = st.audioChunkCount + 1 := by
          simp [handleAudioResponse, h]
        obtain ⟨ih1, ih2, ih3, ih4⟩ := runAudio_spec ps (handleAudioResponse st p.1 p.2).1
        rw [hcount] at ih1
        simp only [hsid] at ih3 ih4
        simp only [runAudio, hev, List.singleton_append]
        refine ⟨?_, ?_, ?_, ih4⟩
        · simp only [List.map_cons, List.length_cons, List.range'_succ, chunkIndexOf]
          rw [ih1]
        · intro e he
          rcases List.mem_cons.mp he with he | he
          · rw [he]; rfl
          · exact ih2 e he
        · simp [List.filter_cons, h, ih3]
      · have hpair : handleAudioResponse st p.1 p.2 = (st, []) := by
          simp [handleAudioResponse, h]
        obtain ⟨ih1, ih2, ih3, ih4⟩ := runAudio_spec ps st
        simp only [runAudio, hpair, List.nil_append]
        refine ⟨ih1, ih2, ?_, ih4⟩
        simp [List.filter_cons, h, ih3]

theorem handleSentenceStart_resets_count (st : ProcessorState) (m : Msg)
    (now fb : ℚ) (h : m.event = EventType.TTSSentenceStart) :
    (handleSentenceStart st m now fb).1.audioChunkCount = 0 := by
  simp [handleSentenceStart, h]

/-- C5. After a sentence-start frame opens a sentence, running any list of
frames through `handleAudioResponse` emits audio-chunk events whose chunk
indices are exactly 0, 1, 2, … in order, all with `isLast = false`, and
one event per frame satisfying the guard (event kind `TTSResponse`, a
truthy open sentence id, and a non-empty payload) — frames failing the
guard emit nothing. -/
theorem audio_chunk_events_consecutive (st0 : ProcessorState) (msg0 : Msg)
    (now0 fb : ℚ) (h0 : msg0.event = EventType.TTSSentenceStart)
    (msgs : List (Msg × ℚ)) :
    (runAudio (handleSentenceStart st0 msg0 now0 fb).1 msgs).2.map chunkIndexOf
        = (List.range
            (runAudio (handleSentenceStart st0 msg0 now0 fb).1 msgs).2.length).map
              some ∧
    (∀ e ∈ (runAudio (handleSentenceStart st0 msg0 now0 fb).1 msgs).2,
        isLastOf e = some false) ∧
    (runAudio (handleSentenceStart st0 msg0 now0 fb).1 msgs).2.length
        = (msgs.filter (fun p =>
            audioGuard (handleSentenceStart st0 msg0 now0 fb).1.currentSentenceId
              p.1)).length := by
  obtain ⟨h1, h2, h3, _⟩ := runAudio_spec msgs (handleSentenceStart st0 msg0 now0 fb).1
  refine ⟨?_, h2, h3⟩
  rw [h1, handleSentenceStart_resets_count st0 msg0 now0 fb h0, List.range_eq_range']

/-- Witness for C5: a sentence-start with sequence number 1 followed by two
non-empty audio frames and one empty one yields chunk indices 0, 1. -/
theorem audio_chunk_events_consecutive_witness :
    (runAudio (handleSentenceStart initProcessor
        ⟨EventType.TTSSentenceStart, some 1, none⟩ 0 7).1
        [(⟨EventType.TTSResponse, none, some ⟨[5, 6], [], none⟩⟩, 1),
         (⟨EventType.TTSResponse, none, some ⟨[], [], none⟩⟩, 2),
         (⟨EventType.TTSResponse, none, some ⟨[7], [], none⟩⟩, 3)]).2.map
      chunkIndexOf = [some 0, some 1] := by
  have h := audio_chunk_events_consecutive initProcessor
      ⟨EventType.TTSSentenceStart, some 1, none⟩ 0 7 rfl
      [(⟨EventType.TTSResponse, none, some ⟨[5, 6], [], none⟩⟩, 1),
       (⟨EventType.TTSResponse, none, some ⟨[], [], none⟩⟩, 2),
       (⟨EventType.TTSResponse, none, some ⟨[7], [], none⟩⟩, 3)]
  rw [h.1]
  decide

/-- C9. On a sentence-end frame with an open (truthy) sentence id,
`handleSentenceEnd` emits exactly one sentence-complete event built from
the pre-reset per-sentence fields, and afterwards the per-sentence working
fields are cleared while `fullText` and `totalSentences` are unchanged. -/
theorem handleSentenceEnd_resets (st : ProcessorState) (msg : Msg) (now : ℚ)
    (h1 : msg.event = EventType.TTSSentenceEnd)
    (h2 : truthyId st.currentSentenceId = true) :
    (handleSentenceEnd st msg now).2
        = [PEvt.sentenceComplete (st.currentSentenceId.getD 0) st.currentSentence
            st.audioChunkCount (now - st.sentenceStartTime)
            (extractTimestampInfo st msg).1 (extractTimestampInfo st msg).2 now] ∧
    (handleSentenceEnd st msg now).1.currentSentenceId = none ∧
    (handleSentenceEnd st msg now).1.currentSentence = [] ∧
    (handleSentenceEnd st msg now).1.audioChunkCount = 0 ∧
    (handleSentenceEnd st msg now).1.sentenceStartTime = 0 ∧
    (handleSentenceEnd st msg now).1.fullText = st.fullText ∧
    (handleSentenceEnd st msg now).1.totalSentences = st.totalSentences := by
  simp [handleSentenceEnd, h1, h2]

/-- Witness for C9 at a concrete open state and sentence-end frame. -/
theorem handleSentenceEnd_resets_witness :
    (⟨EventType.TTSSentenceEnd, none, none⟩ : Msg).event = EventType.TTSSentenceEnd ∧
    truthyId ({ initProcessor with currentSentenceId := some 1 }
        : ProcessorState).currentSentenceId = true ∧
    (handleSentenceEnd { initProcessor with currentSentenceId := some 1 }
        ⟨EventType.TTSSentenceEnd, none, none⟩ 5).1.currentSentenceId = none := by
  refine ⟨rfl, by decide, ?_⟩
  exact (handleSentenceEnd_resets { initProcessor with currentSentenceId := some 1 }
    ⟨EventType.TTSSentenceEnd, none, none⟩ 5 rfl (by decide)).2.1

/-- C4. `extractTimestampInfo` is total by construction; on a message with
no payload, an empty payload, an unparseable payload, or a parsed payload
carrying none of the recognized timing fields (`words`, `timestamps`,
`sentence`, `text`), it returns the even per-character estimate over the
current sentence text with the default total duration 2000 ms. -/
theorem extractTimestampInfo_fallback (st : ProcessorState) (msg : Msg)
    (h : msg.payload = none ∨
         ∃ p, msg.payload = some p ∧
           (p.bytes = [] ∨ p.parsed = none ∨
            ∃ parsed, p.parsed = some parsed ∧ parsed.words = none ∧
              parsed.timestamps = none ∧ parsed.sentence = none ∧
              parsed.text = none)) :
    extractTimestampInfo st msg
      = generateEstimatedTimestamps st.currentSentence 2000 := by
  rcases h with h | ⟨p, hp, h⟩
  · simp [extractTimestampInfo, h]
  · rcases h with h | h | ⟨parsed, hparsed, hw, ht, hs, htxt⟩
    · simp [extractTimestampInfo, hp, h]
    · by_cases hb : p.bytes.length = 0 <;>
        simp [extractTimestampInfo, hp, h, hb]
    · by_cases hb : p.bytes.length = 0 <;>
        simp [extractTimestampInfo, hp, hparsed, hw, ht, hs, htxt, hb, truthyStr]

/-- Witness for C4 on a message with no payload at all. -/
theorem extractTimestampInfo_fallback_witness :
    extractTimestampInfo initProcessor ⟨EventType.TTSSentenceEnd, none, none⟩
      = generateEstimatedTimestamps initProcessor.currentSentence 2000 :=
  extractTimestampInfo_fallback initProcessor
    ⟨EventType.TTSSentenceEnd, none, none⟩ (Or.inl rfl)

/-- C10. Whenever a frame carries a defined sequence number,
`extractSentenceId` returns exactly that number, and the result is
independent of the payload and of the nondeterministic fallback: any two
frames with the same sequence number yield the same id. -/
theorem extractSentenceId_from_sequence (m1 m2 : Msg) (fb1 fb2 : ℚ) (n : ℚ)
    (h1 : m1.sequence = some n) (h2 : m2.sequence = some n) :
    extractSentenceId m1 fb1 = n ∧
    extractSentenceId m1 fb1 = extractSentenceId m2 fb2 := by
  simp [extractSentenceId, h1, h2]

/-- Witness for C10: same sequence number 5, radically different payloads
and fallbacks. -/
theorem extractSentenceId_from_sequence_witness :
    extractSentenceId ⟨EventType.TTSSentenceStart, some 5, none⟩ 111 = 5 ∧
    extractSentenceId ⟨EventType.TTSSentenceStart, some 5, none⟩ 111
      = extractSentenceId ⟨EventType.TTSSentenceStart, some 5,
          some ⟨[1, 2, 3], "junk".toList, some { sentence_id := some 9 }⟩⟩ 222 :=
  extractSentenceId_from_sequence _ _ 111 222 5 rfl rfl

/-- C6. `getMergedAudio` returns `null` exactly when the sentence id is
unknown or the sentence has no audio chunks; otherwise it returns the
bytewise concatenation of the chunks' data in list (arrival) order, whose
length is the sum of the chunk lengths, regardless of chunk sizes. -/
theorem getMergedAudio_spec (c : ClientState) (sid : ℚ) :
    (getMergedAudio c sid = none ↔
      c.sentences sid = none ∨
        ∃ s, c.sentences sid = some s ∧ s.audioChunks = []) ∧
    (∀ s, c.sentences sid = some s → s.audioChunks ≠ [] →
      getMergedAudio c sid = some (mergeChunks s.audioChunks) ∧
      (mergeChunks s.audioChunks).length
        = (s.audioChunks.map (fun ch => ch.data.length)).sum) := by
  constructor
  · constructor
    · intro h
      unfold getMergedAudio at h
      cases hc : c.sentences sid with
      | none => exact Or.inl rfl
      | some s =>
          rw [hc] at h
          refine Or.inr ⟨s, rfl, ?_⟩
          by_cases hl : s.audioChunks.length = 0
          · exact List.length_eq_zero.mp hl
          · simp [hl] at h
    · intro h
      rcases h with h | ⟨s, hs, hchunks⟩
      · simp [getMergedAudio, h]
      · simp [getMergedAudio, hs, hchunks]
  · intro s hs hchunks
    have hl : ¬ s.audioChunks.length = 0 := by
      simpa [List.length_eq_zero] using hchunks
    refine ⟨by simp [getMergedAudio, hs, hl], ?_⟩
    simp only [mergeChunks, List.length_flatten, List.map_map]
    rfl

/-- Witness for C6: two chunks of different sizes merge to their
concatenation. -/
theorem getMergedAudio_spec_witness :
    getMergedAudio
      ⟨mapSet (fun _ => none) 1
        ⟨1, [], [⟨0, [1, 2], 0⟩, ⟨1, [3], 1⟩], SStatus.collecting, 0,
          none, none, none, none, none⟩, 1, 0, 2⟩ 1 = some [1, 2, 3] := by
  have h := (getMergedAudio_spec
      ⟨mapSet (fun _ => none) 1
        ⟨1, [], [⟨0, [1, 2], 0⟩, ⟨1, [3], 1⟩], SStatus.collecting, 0,
          none, none, none, none, none⟩, 1, 0, 2⟩ 1).2
      ⟨1, [], [⟨0, [1, 2], 0⟩, ⟨1, [3], 1⟩], SStatus.collecting, 0,
        none, none, none, none, none⟩ (by decide) (by decide)
  rw [h.1]
  decide

/-- C7 (amended). A stored completed sentence is left untouched by any
subsequently handled event that addresses a different sentence id (or no
sentence at all). An audio-chunk or sentence-complete event bearing the
completed sentence's own id, however, does mutate it — the client handlers
do not check the status; see the counterexample. -/
theorem completed_sentence_untouched (c : ClientState) (sid : ℚ) (s : SentenceData)
    (ev : CEvent) (hs : c.sentences sid = some s)
    (hst : s.status = SStatus.completed)
    (hother : eventForOtherSentence ev sid) :
    (clientStep c ev).sentences sid = some s := by
  cases ev with
  | textChunk _ _ => simpa [clientStep] using hs
  | chatComplete _ _ _ => simpa [clientStep] using hs
  | sentenceStart i t ts =>
      have hi : ¬ sid = i := fun h => hother h.symm
      simp [clientStep, mapSet, hi, hs]
  | audioChunk i idx data ts =>
      have hi : ¬ sid = i := fun h => hother h.symm
      cases hci : c.sentences i with
      | none => simpa [clientStep, hci] using hs
      | some sd => simp [clientStep, hci, mapSet, hi, hs]
  | sentenceComplete i dur ats tad ts =>
      have hi : ¬ sid = i := fun h => hother h.symm
      cases hci : c.sentences i with
      | none => simpa [clientStep, hci] using hs
      | some sd => simp [clientStep, hci, mapSet, hi, hs]

/-- C7 counterexample. After sentence 1 completes, a further audio-chunk
event with id 1 appends a chunk and reverts the stored status to
`collecting`: the completed sentence is not immutable. -/
theorem completed_sentence_mutated_counterexample :
    ((clientRun initClient
        [CEvent.sentenceStart 1 ("hi".toList) 0,
         CEvent.sentenceComplete 1 5 none none 10]).sentences 1).map
      SentenceData.status = some SStatus.completed ∧
    ((clientStep (clientRun initClient
        [CEvent.sentenceStart 1 ("hi".toList) 0,
         CEvent.sentenceComplete 1 5 none none 10])
        (CEvent.audioChunk 1 0 [7] 20)).sentences 1).map
      SentenceData.status = some SStatus.collecting ∧
    SStatus.collecting ≠ SStatus.completed := by
  refine ⟨by decide, by decide, by decide⟩

/-- Witness for the amended C7: a sentence-start for id 2 leaves the
completed sentence 1 untouched. -/
theorem completed_sentence_untouched_witness :
    ((clientStep (clientRun initClient
        [CEvent.sentenceStart 1 ("hi".toList) 0,
         CEvent.sentenceComplete 1 5 none none 10])
        (CEvent.sentenceStart 2 [] 30)).sentences 1)
      = some ⟨1, "hi".toList, [], SStatus.completed, 0, some 10, some 5,
          none, none, none⟩ :=
  completed_sentence_untouched
    (clientRun initClient
      [CEvent.sentenceStart 1 ("hi".toList) 0,
       CEvent.sentenceComplete 1 5 none none 10]) 1
    ⟨1, "hi".toList, [], SStatus.completed, 0, some 10, some 5, none, none, none⟩
    (CEvent.sentenceStart 2 [] 30) (by decide) rfl
    (by show (2 : ℚ) ≠ 1; decide)

theorem inFrame_getLast?_cons (a : InFrame) (l : List InFrame) (h : l ≠ []) :
    (a :: l).getLast? = l.getLast? := by
  cases l with
  | nil => exact absurd rfl h
  | cons b t => exact List.getLast?_cons_cons

theorem splitAtMatch_isSome : ∀ (l : List InFrame),
    (splitAtMatch l).isSome = l.any isConnFinished
  | [] => by simp [splitAtMatch]
  | f :: rest => by
      have ih := splitAtMatch_isSome rest
      by_cases h : isConnFinished f = true
      · simp [splitAtMatch, h]
      · have hf : isConnFinished f = false := by
          simpa using h
        cases hr : splitAtMatch rest with
        | none =>
            rw [show splitAtMatch (f :: rest) = none from by
              simp [splitAtMatch, hf, hr]]
            rw [hr] at ih
            simp [List.any_cons, hf, ← ih]
        | some pr =>
            obtain ⟨cc, rr⟩ := pr
            rw [show splitAtMatch (f :: rest) = some (f :: cc, rr) from by
              simp [splitAtMatch, hf, hr]]
            rw [hr] at ih
            simp [List.any_cons, hf, ← ih]

theorem splitAtMatch_some_spec : ∀ (l c r : List InFrame),
    splitAtMatch l = some (c, r) →
    (∃ f, c.getLast? = some f ∧ isConnFinished f = true) ∧ l = c ++ r
  | [], c, r, h => by simp [splitAtMatch] at h
  | f :: rest, c, r, h => by
      by_cases hf : isConnFinished f = true
      · rw [show splitAtMatch (f :: rest) = some ([f], rest) from by
          simp [splitAtMatch, hf]] at h
        obtain ⟨hc, hr⟩ : [f] = c ∧ rest = r := by
          simpa [Prod.ext_iff] using h
        subst hc
        subst hr
        exact ⟨⟨f, rfl, hf⟩, rfl⟩
      · have hf' : isConnFinished f = false := by
          simpa using hf
        cases hrest : splitAtMatch rest with
        | none =>
            rw [show splitAtMatch (f :: rest) = none from by
              simp [splitAtMatch, hf', hrest]] at h
            exact Option.noConfusion h
        | some pr =>
            obtain ⟨cc, rr⟩ := pr
            rw [show splitAtMatch (f :: rest) = some (f :: cc, rr) from by
              simp [splitAtMatch, hf', hrest]] at h
            obtain ⟨⟨g, hlast, hg⟩, heq⟩ := splitAtMatch_some_spec rest cc rr hrest
            obtain ⟨hc, hr⟩ : f :: cc = c ∧ rr = r := by
              simpa [Prod.ext_iff] using h
            subst hc
            subst hr
            have hccne : cc ≠ [] := by
              intro hnil
              rw [hnil] at hlast
              exact Option.noConfusion hlast
            refine ⟨⟨g, ?_, hg⟩, by rw [List.cons_append, ← heq]⟩
            rw [inFrame_getLast?_cons f cc hccne]
            exact hlast

/-- C8. `session.finished()` first sends the finish-session frame, then
the finish-connection frame; the socket-close action occurs in its trace
exactly when the inbound stream contains a connection-finished
acknowledgment, and when it does, the trace is the two sends followed by
the consumed frames and the close — the frame consumed immediately before
closing being the acknowledgment itself. The socket is never closed
before the acknowledgment arrives. -/
theorem finished_order (inbound : List InFrame) :
    (finishedTrace inbound).take 2
        = [SessAct.sendFinishSession, SessAct.sendFinishConnection] ∧
    (SessAct.closeSocket ∈ finishedTrace inbound ↔
        ∃ f ∈ inbound, isConnFinished f = true) ∧
    (∀ c r, splitAtMatch inbound = some (c, r) →
        finishedTrace inbound
            = SessAct.sendFinishSession :: SessAct.sendFinishConnection ::
                (c.map SessAct.recvFrame ++ [SessAct.closeSocket]) ∧
        ∃ f, c.getLast? = some f ∧ isConnFinished f = true) := by
  refine ⟨?_, ?_, ?_⟩
  · cases h : splitAtMatch inbound with
    | none => simp [finishedTrace, h]
    | some pr =>
        obtain ⟨c, r⟩ := pr
        simp [finishedTrace, h]
  · cases h : splitAtMatch inbound with
    | none =>
        have hno : inbound.any isConnFinished = false := by
          rw [← splitAtMatch_isSome inbound, h]
          rfl
        have hnex : ¬ ∃ f ∈ inbound, isConnFinished f = true := by
          intro hex
          rw [show inbound.any isConnFinished = true from
            List.any_eq_true.mpr (by simpa using hex)] at hno
          exact Bool.noConfusion hno
        simp [finishedTrace, h, hnex]
    | some pr =>
        obtain ⟨c, r⟩ := pr
        have hsome := splitAtMatch_some_spec inbound c r h
        have hex : ∃ f ∈ inbound, isConnFinished f = true := by
          obtain ⟨⟨g, hlast, hg⟩, heq⟩ := hsome
          refine ⟨g, ?_, hg⟩
          rw [heq]
          exact List.mem_append_left r (List.mem_of_getLast?_eq_some hlast)
        simp [finishedTrace, h, hex]
  · intro c r h
    obtain ⟨hlast, heq⟩ := splitAtMatch_some_spec inbound c r h
    exact ⟨by simp [finishedTrace, h], hlast⟩

/-- Witness for C8: an audio frame followed by the acknowledgment — the
socket is closed, and the two finish frames are sent first, in order. -/
theorem finished_order_witness :
    SessAct.closeSocket ∈ finishedTrace
        [⟨MsgType.AudioOnlyServer, EventType.TTSResponse⟩,
         ⟨MsgType.FullServerResponse, EventType.ConnectionFinished⟩] ∧
    (finishedTrace
        [⟨MsgType.AudioOnlyServer, EventType.TTSResponse⟩,
         ⟨MsgType.FullServerResponse, EventType.ConnectionFinished⟩]).take 2
      = [SessAct.sendFinishSession, SessAct.sendFinishConnection] := by
  refine ⟨?_, (finished_order _).1⟩
  exact (finished_order _).2.1.mpr
    ⟨⟨MsgType.FullServerResponse, EventType.ConnectionFinished⟩, by decide, by decide⟩
